import Mathlib

/-!
Verification development for the Yarely digital-signage playout engine.

Each section gives a shallow embedding (in Lean) of one part of the Python
source under `src/yarely`, followed by theorems that settle the corresponding
specification claims.  Machine floats of the source are modelled as exact
rationals; Python `round` (banker's rounding) and `int` (truncation toward
zero) are modelled explicitly.
-/

namespace Yarely

/-! ## Pull handler backoff window

Embedding of `yarely/core/helpers/base_classes/pull_handler.py`.
`PullHandler.__init__` sets `self.window = DEFAULT_WINDOW`; `_fail` sets
`self.window = min(self.window * 2, self.refresh_rate)` and starts the read
timer with that window; `_success` resets `self.window = DEFAULT_WINDOW` and
starts the read timer with `self.refresh_rate`. -/

namespace Pull

/-- `DEFAULT_WINDOW = 60` seconds (pull_handler.py line 30). -/
def DEFAULT_WINDOW : ℚ := 60

/-- The backoff state of a `PullHandler`: the current window and the delay
passed to the most recent `start_read_timer` call. -/
structure PullState where
  window : ℚ
  nextDelay : ℚ
deriving DecidableEq

/-- The state right after `__init__` plus the near-immediate first read
scheduled by `_handle_reply_params` (`start_read_timer(0.1)`). -/
def initState : PullState := ⟨DEFAULT_WINDOW, 1/10⟩

/-- `PullHandler._fail`: `window = min(window * 2, refresh_rate)`;
`start_read_timer(window)`. -/
def failStep (refreshRate : ℚ) (s : PullState) : PullState :=
  let w := min (s.window * 2) refreshRate
  ⟨w, w⟩

/-- `PullHandler._success`: `window = DEFAULT_WINDOW`;
`start_read_timer(refresh_rate)`. -/
def successStep (refreshRate : ℚ) (_s : PullState) : PullState :=
  ⟨DEFAULT_WINDOW, refreshRate⟩

end Pull

/-- Claim C9: the backoff window starts at `DEFAULT_WINDOW = 60` seconds; after
each read failure the next retry is scheduled after `min(2 * window,
refresh_rate)` seconds and the window is updated to that value; after each
successful read the window is reset to 60 and the next read is scheduled after
exactly `refresh_rate` seconds; the retry delay never exceeds `refresh_rate`. -/
theorem C9_pull_backoff_window (r : ℚ) (s : Pull.PullState) :
    Pull.initState.window = 60 ∧
    Pull.failStep r s = ⟨min (s.window * 2) r, min (s.window * 2) r⟩ ∧
    (Pull.failStep r s).window = min (s.window * 2) r ∧
    (Pull.failStep r s).nextDelay ≤ r ∧
    Pull.successStep r s = ⟨60, r⟩ := by
  refine ⟨rfl, rfl, rfl, ?_, rfl⟩
  exact min_le_right _ _

/-! ## Scheduling manager: same-item rescheduling

Embedding of the same-item branch of `SchedulingManager.item_scheduling`
(`yarely/core/scheduling/manager.py` lines 459-516).  When the newly selected
item equals the currently active item, the source computes
`time_difference = time.time() - active_timestamp` and, if
`time_difference < active_item_duration`, calls
`self._start_item_scheduling_timeout(int(time_difference))` and returns;
otherwise it falls through and re-presents the item. -/

namespace Sched

/-- `DEFAULT_CONTENT_DURATION = 15` seconds (scheduling/constants.py). -/
def DEFAULT_CONTENT_DURATION : ℚ := 15

/-- Python `int()` truncation toward zero on an exact rational. -/
def pyInt (q : ℚ) : ℤ :=
  if 0 ≤ q then ⌊q⌋ else -⌊-q⌋

/-- The observable outcome of the same-item branch: whether
`display_manager.display_item` runs again, and the delay handed to
`_start_item_scheduling_timeout`. -/
structure SchedDecision where
  representedAgain : Bool
  timeoutDelay : ℚ
deriving DecidableEq

/-- The same-item branch of `item_scheduling` (manager.py lines 461-496).
`activeDuration` is `active_item.get_duration()` (`none` when no
`PreferredDurationConstraint` is set), `newItemDuration` is the already-computed
duration of the (identical) new item, and `now - activeTimestamp` is the
elapsed display time. -/
def sameItemBranch (activeDuration : Option ℚ) (newItemDuration : ℚ)
    (now activeTimestamp : ℚ) : SchedDecision :=
  match activeDuration with
  | none => ⟨false, DEFAULT_CONTENT_DURATION⟩
  | some d =>
    let timeDifference := now - activeTimestamp
    if timeDifference < d then
      ⟨false, (pyInt timeDifference : ℚ)⟩
    else
      ⟨true, newItemDuration⟩

end Sched

/-- Claim C4 evaluated at the failing input: with an active duration of 10
seconds and 3 seconds elapsed (`now = 1003`, `active_timestamp = 1000`), the
remaining time is `10 - 3 = 7 > 0` and the source indeed returns without
re-presenting, but it reschedules `item_scheduling` after
`int(time_difference) = 3` seconds (the ELAPSED time), not after the remaining
7 seconds stated by the claim and by the source's own docstring and inline
comment. -/
theorem C4_same_item_reschedules_elapsed_not_remaining :
    Sched.sameItemBranch (some 10) 10 1003 1000 = ⟨false, 3⟩ ∧
    (10 : ℚ) - (1003 - 1000) = 7 ∧ (3 : ℚ) ≠ 7 := by
  refine ⟨?_, by norm_num, by norm_num⟩
  simp [Sched.sameItemBranch, Sched.pyInt]
  norm_num

/-! ## Ratio allocator: scaled sibling ratios

Embedding of `get_scaled_ratio` from
`yarely/core/scheduling/schedulers/lottery/ratio_allocator.py` (lines
189-267).  A sibling group is given by the list of unscaled
`PlaybackConstraint` ratios of `[content_item] + content_item.get_siblings()`
in source order; `none` means no ratio is specified
(`PlaybackConstraint.UNSCALED_RATIO_DEFAULT` is `None`). -/

namespace Ratio

/-- `specified_ratio_sum`: the sum of all specified sibling ratios. -/
def specifiedSum (ratios : List (Option ℚ)) : ℚ :=
  (ratios.filterMap id).sum

/-- `len(unspecified_ratio_items)`: how many siblings have no ratio. -/
def unspecifiedCount (ratios : List (Option ℚ)) : ℕ :=
  ratios.countP (fun r => r.isNone)

/-- `len(specified_ratios)`: how many siblings have a ratio. -/
def specifiedCount (ratios : List (Option ℚ)) : ℕ :=
  ratios.countP (fun r => r.isSome)

/-- `default_ratio` (ratio_allocator.py lines 234-238): when unspecified items
exist, `(1 - specified_ratio_sum)/unspecified_ratio_count` if the specified sum
is below 1, else `specified_ratio_sum/len(all_ratios)` where `all_ratios` lists
every sibling (specified AND unspecified).  When every ratio is specified the
Python variable is never read; the 0 returned here is likewise never used. -/
def defaultRatio (ratios : List (Option ℚ)) : ℚ :=
  if unspecifiedCount ratios ≠ 0 ∧ specifiedSum ratios < 1 then
    (1 - specifiedSum ratios) / (unspecifiedCount ratios : ℚ)
  else if unspecifiedCount ratios ≠ 0 then
    specifiedSum ratios / (ratios.length : ℚ)
  else 0

/-- `all_ratios_sum = specified_ratio_sum + unspecified_ratio_count *
default_ratio` (lines 241-245). -/
def allRatiosSum (ratios : List (Option ℚ)) : ℚ :=
  specifiedSum ratios + (unspecifiedCount ratios : ℚ) * defaultRatio ratios

/-- `scale_factor = 1 if all_ratios_sum == 1 else 1 / all_ratios_sum`
(line 246). -/
def scaleFactor (ratios : List (Option ℚ)) : ℚ :=
  if allRatiosSum ratios = 1 then 1 else 1 / allRatiosSum ratios

/-- `sibling_scaled_ratio` (lines 257-260): the sibling's own unscaled ratio,
or the default ratio when unspecified, times the scale factor. -/
def siblingScaledRatio (ratios : List (Option ℚ)) (r : Option ℚ) : ℚ :=
  (r.getD (defaultRatio ratios)) * scaleFactor ratios

/-- The cached final value (line 265): the parent's scaled ratio times the
sibling's scaled ratio.  The root has `parent_ratio = 1` (line 250). -/
def scaledRatio (parentRatio : ℚ) (ratios : List (Option ℚ)) (r : Option ℚ) : ℚ :=
  parentRatio * siblingScaledRatio ratios r

/-- Python `round` applied to an exact rational: round half to even, as for
Python floats. -/
def pyRound (q : ℚ) : ℤ :=
  let f := ⌊q⌋
  let frac := q - (f : ℚ)
  if frac < 1/2 then f
  else if 1/2 < frac then f + 1
  else if f % 2 = 0 then f else f + 1

/-- `_SimplePerItemRatioAllocator._allocate` (ratio_allocator.py lines 62-108):
walk the (already shuffled) `(content_item, ratio)` pairs; each item gets
`tickets_for_item = max(min(round(total * ratio), len(tickets_left)), 1)`
tickets popped from the pool; when the pool becomes empty the loop breaks and
the remaining items get nothing.  The input list order is the post-shuffle
order; `remaining` is `len(self.tickets_for_allocation)`.  (With an initially
empty pool the source would raise `IndexError` on `pop`; all theorems below
start from `total = remaining ≥ 1`.) -/
def allocateLoop (total : ℕ) : List ℚ → ℕ → List ℕ
  | [], _ => []
  | r :: rs, remaining =>
    let t : ℤ := max (min (pyRound ((total : ℚ) * r)) (remaining : ℤ)) 1
    let tn : ℕ := t.toNat
    if remaining - tn = 0 then [tn]
    else tn :: allocateLoop total rs (remaining - tn)

/-- Ticket allocation over `n` tickets: every ticket starts unallocated. -/
def allocateTickets (n : ℕ) (ratios : List ℚ) : List ℕ :=
  allocateLoop n ratios n

/-- `total_content_duration` (`_RatioAllocator.allocate_tickets`, lines
130-133): items are `(scaled_ratio, duration)` pairs. -/
def totalDuration (items : List (ℚ × ℚ)) : ℚ :=
  (items.map Prod.snd).sum

/-- `revised_ratio = get_scaled_ratio(c) * total_content_duration /
get_duration(c)` (lines 137-146). -/
def revisedRatios (items : List (ℚ × ℚ)) : List ℚ :=
  items.map (fun it => it.1 * totalDuration items / it.2)

/-- The final renormalization `(1/total_revised_ratios) * revised_ratio`
(lines 148-152). -/
def effectiveRatios (items : List (ℚ × ℚ)) : List ℚ :=
  (revisedRatios items).map (fun q => 1 / (revisedRatios items).sum * q)

lemma sum_map_mul_left_const (l : List ℚ) (c : ℚ) :
    (l.map (fun x => c * x)).sum = c * l.sum := by
  induction l with
  | nil => simp
  | cons x rest ih => simp [ih]; ring

lemma allocateLoop_bounds (total : ℕ) :
    ∀ (rs : List ℚ) (remaining : ℕ), 1 ≤ remaining →
      (allocateLoop total rs remaining).sum ≤ remaining ∧
      ∀ t ∈ allocateLoop total rs remaining, 1 ≤ t := by
  intro rs
  induction rs with
  | nil => intro remaining _; simp [allocateLoop]
  | cons r rs ih =>
    intro remaining hrem
    have h1 : (1 : ℤ) ≤ max (min (pyRound ((total : ℚ) * r)) (remaining : ℤ)) 1 :=
      le_max_right _ _
    have h2 : max (min (pyRound ((total : ℚ) * r)) (remaining : ℤ)) 1
        ≤ (remaining : ℤ) :=
      max_le (min_le_right _ _) (by exact_mod_cast hrem)
    rw [allocateLoop]
    set t : ℤ := max (min (pyRound ((total : ℚ) * r)) (remaining : ℤ)) 1 with ht
    have hn1 : 1 ≤ t.toNat := by omega
    have hn2 : t.toNat ≤ remaining := by omega
    by_cases hz : remaining - t.toNat = 0
    · rw [if_pos hz]
      constructor
      · simpa using hn2
      · intro x hx
        simp only [List.mem_singleton] at hx
        omega
    · rw [if_neg hz]
      have hrec := ih (remaining - t.toNat) (by omega)
      constructor
      · simp only [List.sum_cons]
        omega
      · intro x hx
        rcases List.mem_cons.mp hx with h | h
        · omega
        · exact hrec.2 x h

/-- Modelled from the claim's words only (for comparison with the source):
"the mean of the specified ratios", i.e. their sum over their count. -/
def meanOfSpecifiedSpec (ratios : List (Option ℚ)) : ℚ :=
  specifiedSum ratios / (specifiedCount ratios : ℚ)

lemma sum_map_getD (ratios : List (Option ℚ)) (d : ℚ) :
    (ratios.map (fun r => r.getD d)).sum
      = specifiedSum ratios + (unspecifiedCount ratios : ℚ) * d := by
  induction ratios with
  | nil => simp [specifiedSum, unspecifiedCount]
  | cons r rest ih =>
    cases r with
    | some x =>
      simp only [List.map_cons, List.sum_cons, ih, specifiedSum,
        unspecifiedCount, List.filterMap_cons, List.countP_cons] at *
      simp [specifiedSum, unspecifiedCount] at ih ⊢
      ring
    | none =>
      simp [specifiedSum, unspecifiedCount, List.countP_cons] at ih ⊢
      rw [ih]
      ring_nf

lemma sum_map_mul_right_const (l : List ℚ) (c : ℚ) :
    (l.map (fun x => x * c)).sum = l.sum * c := by
  induction l with
  | nil => simp
  | cons x rest ih => simp [ih]; ring


end Ratio

/-- Claim C3 counterexample: with three items of equal effective ratio `1/3`
and `N = 1000`-style pool scaled down to `N = 10` tickets, the source allocates
`round(10/3) = 3` tickets to each item, a total of `9`: the last item does NOT
receive the remaining ticket and not every one of the `N` tickets is
allocated (the leftover ticket never reaches the allocated pool). -/
theorem C3_counterexample_unallocated_tickets :
    Ratio.allocateTickets 10 [1/3, 1/3, 1/3] = [3, 3, 3] ∧
    (Ratio.allocateTickets 10 [1/3, 1/3, 1/3]).sum = 9 ∧ (9 : ℕ) ≠ 10 := by
  have h : Ratio.allocateTickets 10 [1/3, 1/3, 1/3] = [3, 3, 3] := by
    norm_num [Ratio.allocateTickets, Ratio.allocateLoop, Ratio.pyRound]
    decide
  refine ⟨h, by rw [h]; norm_num, by norm_num⟩

/-- Claim C3 (amended): the effective ratios are the scaled ratios times the
total duration over the item duration, renormalized so they sum to exactly 1
(whenever the pre-normalization sum is nonzero); each item in shuffle order
then receives `max(min(round(N * ratio), tickets-remaining), 1)` tickets —
at least 1 and never more than remain — so at most `N` tickets are handed
out in total, and tickets can be left unallocated when the rounded shares fall
short of `N` (there is no last-item sweep of the remainder). -/
theorem C3_ticket_allocation_amended (items : List (ℚ × ℚ)) (n : ℕ)
    (ratios : List ℚ)
    (htot : (Ratio.revisedRatios items).sum ≠ 0) (hn : 1 ≤ n) :
    (Ratio.effectiveRatios items).sum = 1 ∧
    (Ratio.allocateTickets n ratios).sum ≤ n ∧
    (∀ t ∈ Ratio.allocateTickets n ratios, 1 ≤ t) ∧
    (∀ r rs, (Ratio.allocateTickets n (r :: rs)).head?
        = some (max (min (Ratio.pyRound ((n : ℚ) * r)) (n : ℤ)) 1).toNat) := by
  refine ⟨?_, (Ratio.allocateLoop_bounds n ratios n hn).1,
    (Ratio.allocateLoop_bounds n ratios n hn).2, ?_⟩
  · rw [Ratio.effectiveRatios, Ratio.sum_map_mul_left_const,
      one_div, inv_mul_cancel₀ htot]
  · intro r rs
    rw [Ratio.allocateTickets, Ratio.allocateLoop]
    by_cases hz : n - (max (min (Ratio.pyRound ((n : ℚ) * r)) (n : ℤ)) 1).toNat = 0
    · rw [if_pos hz]; rfl
    · rw [if_neg hz]; rfl

/-- Witness for `C3_ticket_allocation_amended`: two items with scaled ratio
`1/2` and duration 10 each, and a pool of 10 tickets. -/
theorem C3_ticket_allocation_amended_witness :
    ((Ratio.revisedRatios [(1/2, 10), (1/2, 10)]).sum ≠ 0 ∧ 1 ≤ 10) ∧
    ((Ratio.effectiveRatios [(1/2, 10), (1/2, 10)]).sum = 1 ∧
      (Ratio.allocateTickets 10 [1/2, 1/2]).sum ≤ 10 ∧
      (∀ t ∈ Ratio.allocateTickets 10 [1/2, 1/2], 1 ≤ t) ∧
      (∀ r rs, (Ratio.allocateTickets 10 (r :: rs)).head?
          = some (max (min (Ratio.pyRound ((10 : ℚ) * r)) (10 : ℤ)) 1).toNat)) :=
  ⟨⟨by norm_num [Ratio.revisedRatios, Ratio.totalDuration], by norm_num⟩,
    C3_ticket_allocation_amended [(1/2, 10), (1/2, 10)] 10 [1/2, 1/2]
      (by norm_num [Ratio.revisedRatios, Ratio.totalDuration]) (by norm_num)⟩


/-- Claim C2 counterexample: for the sibling group with specified ratios
`3/5` and `4/5` (sum `7/5 ≥ 1`) and one unspecified sibling, the source
computes the unspecified sibling's default ratio as
`specified_ratio_sum / len(all_ratios) = (7/5)/3 = 7/15` — NOT the mean of the
specified ratios `(7/5)/2 = 7/10` as the claim states (and after
renormalization the unspecified share becomes `1/4`, still not `7/10`). -/
theorem C2_counterexample_mean_of_specified :
    Ratio.defaultRatio [some (3/5), some (4/5), none] = 7/15 ∧
    Ratio.meanOfSpecifiedSpec [some (3/5), some (4/5), none] = 7/10 ∧
    Ratio.siblingScaledRatio [some (3/5), some (4/5), none] none = 1/4 ∧
    (7/15 : ℚ) ≠ 7/10 ∧ (1/4 : ℚ) ≠ 7/10 := by
  refine ⟨?_, ?_, ?_, by norm_num, by norm_num⟩ <;>
    simp [Ratio.defaultRatio, Ratio.meanOfSpecifiedSpec,
      Ratio.siblingScaledRatio, Ratio.scaleFactor, Ratio.allRatiosSum,
      Ratio.specifiedSum, Ratio.unspecifiedCount, Ratio.specifiedCount] <;>
    norm_num

/-- Claim C2 (amended): with `Σ` the sum of the specified sibling ratios, `k`
the number of unspecified siblings and `n` the total number of siblings, each
unspecified sibling's effective ratio is `(1-Σ)/k` when `Σ < 1` and `Σ/n`
(NOT the mean of the specified ratios) otherwise; after renormalization the
sibling ratios sum to exactly 1 (whenever the pre-normalization sum is nonzero
— when it is zero the source raises `ZeroDivisionError`); and the final scaled
ratio is the sibling share times the parent's scaled ratio, the root's parent
ratio being 1. -/
theorem C2_scaled_ratio_amended (ratios : List (Option ℚ)) (p : ℚ)
    (hsum : Ratio.allRatiosSum ratios ≠ 0) :
    (Ratio.unspecifiedCount ratios ≠ 0 → Ratio.specifiedSum ratios < 1 →
      Ratio.defaultRatio ratios
        = (1 - Ratio.specifiedSum ratios) / (Ratio.unspecifiedCount ratios : ℚ)) ∧
    (Ratio.unspecifiedCount ratios ≠ 0 → 1 ≤ Ratio.specifiedSum ratios →
      Ratio.defaultRatio ratios
        = Ratio.specifiedSum ratios / (ratios.length : ℚ)) ∧
    (ratios.map (fun r => Ratio.siblingScaledRatio ratios r)).sum = 1 ∧
    (∀ r, Ratio.scaledRatio p ratios r = p * Ratio.siblingScaledRatio ratios r) := by
  refine ⟨?_, ?_, ?_, fun r => rfl⟩
  · intro hk hs
    rw [Ratio.defaultRatio, if_pos ⟨hk, hs⟩]
  · intro hk hs
    rw [Ratio.defaultRatio, if_neg ?_, if_pos hk]
    intro hand
    exact absurd hand.2 (not_lt.mpr hs)
  · have hmap : (ratios.map (fun r => Ratio.siblingScaledRatio ratios r))
        = (ratios.map (fun r => r.getD (Ratio.defaultRatio ratios))).map
            (fun x => x * Ratio.scaleFactor ratios) := by
      simp [Ratio.siblingScaledRatio, List.map_map, Function.comp]
    rw [hmap, Ratio.sum_map_mul_right_const, Ratio.sum_map_getD]
    show Ratio.allRatiosSum ratios * Ratio.scaleFactor ratios = 1
    rw [Ratio.scaleFactor]
    by_cases h1 : Ratio.allRatiosSum ratios = 1
    · rw [if_pos h1, h1, mul_one]
    · rw [if_neg h1, mul_one_div, div_self hsum]

/-- Witness for `C2_scaled_ratio_amended` at the sibling group
`[some (1/4), none]` with parent ratio 1. -/
theorem C2_scaled_ratio_amended_witness :
    Ratio.allRatiosSum [some (1/4), none] ≠ 0 ∧
    ((Ratio.unspecifiedCount [some (1/4), none] ≠ 0 →
        Ratio.specifiedSum [some (1/4), none] < 1 →
        Ratio.defaultRatio [some (1/4), none]
          = (1 - Ratio.specifiedSum [some (1/4), none])
              / (Ratio.unspecifiedCount [some (1/4), none] : ℚ)) ∧
      (Ratio.unspecifiedCount [some (1/4), none] ≠ 0 →
        1 ≤ Ratio.specifiedSum [some (1/4), none] →
        Ratio.defaultRatio [some (1/4), none]
          = Ratio.specifiedSum [some (1/4), none]
              / (([some ((1:ℚ)/4), none].length : ℚ))) ∧
      (([some ((1:ℚ)/4), none].map
          (fun r => Ratio.siblingScaledRatio [some (1/4), none] r)).sum = 1) ∧
      (∀ r, Ratio.scaledRatio 1 [some (1/4), none] r
          = 1 * Ratio.siblingScaledRatio [some (1/4), none] r)) :=
  ⟨by norm_num [Ratio.allRatiosSum, Ratio.defaultRatio, Ratio.specifiedSum,
      Ratio.unspecifiedCount, List.countP_cons, List.filterMap_cons],
    C2_scaled_ratio_amended [some (1/4), none] 1
      (by norm_num [Ratio.allRatiosSum, Ratio.defaultRatio, Ratio.specifiedSum,
        Ratio.unspecifiedCount, List.countP_cons, List.filterMap_cons])⟩

/-! ## Manager base: rotating handler tokens

Embedding of the token handling in
`yarely/core/helpers/base_classes/manager.py` for one supervised handler
subprocess.  `SubprocessExecutionWithErrorCapturing.__init__` creates the
one-off registration token; `register()` (lines 625-629) sets the registered
flag and replaces `security_token` with a fresh `uuid4`; `has_token` compares
against the CURRENT token only.  `Manager._handle_register` accepts a
`register` whose token matches; `check_handler_token` and
`_handle_request_ping` (lines 287-312) attribute any other verb (ping,
subscription_update, sensor_update, ...) to the handler found by
`_lookup_executing_handler_with_token`, i.e. by comparison with the current
token.  Tokens are modelled as naturals; `uuid4` freshness is modelled by a
counter that only hands out never-before-used values. -/

namespace Token

/-- The manager-side record for one handler subprocess. -/
structure MgrState where
  securityToken : ℕ
  registered : Bool
  nextFresh : ℕ
deriving DecidableEq

/-- State right after spawn: the handler's current token IS the one-off
registration token handed out on the command line. -/
def initState (oneOff : ℕ) : MgrState :=
  ⟨oneOff, false, oneOff + 1⟩

/-- An incoming ZMQ request: `register`, or any token-guarded verb
(`ping`, `subscription_update`, `sensor_update`, ...). -/
inductive Msg
  | register (tok : ℕ)
  | nonRegister (tok : ℕ)

/-- One manager step.  The boolean records whether the message was accepted as
coming from this handler (for `register`: a `params` reply is issued and a
fresh token installed; for other verbs: the handler lookup succeeded and, e.g.,
`last_checkin` is updated).  An unmatched token is logged and changes
nothing. -/
def step (s : MgrState) : Msg → MgrState × Bool
  | .register t =>
    if t = s.securityToken then (⟨s.nextFresh, true, s.nextFresh + 1⟩, true)
    else (s, false)
  | .nonRegister t =>
    if t = s.securityToken then (s, true) else (s, false)

/-- `step`, but only the state. -/
def run (s : MgrState) : List Msg → MgrState
  | [] => s
  | m :: ms => run (step s m).1 ms

/-- Whether a message would be accepted as coming from this handler. -/
def accepts (s : MgrState) (m : Msg) : Bool := (step s m).2

lemma run_append (s : MgrState) (ms1 ms2 : List Msg) :
    run s (ms1 ++ ms2) = run (run s ms1) ms2 := by
  induction ms1 generalizing s with
  | nil => rfl
  | cons m ms ih => simp [run, ih]

/-- The invariant carried through every message sequence: fresh tokens are
always strictly above the one-off token, and once registered the current token
differs from the one-off token. -/
def tokenInv (oneOff : ℕ) (s : MgrState) : Prop :=
  oneOff < s.nextFresh ∧ (s.registered = true → s.securityToken ≠ oneOff)

lemma step_preserves_tokenInv (oneOff : ℕ) (s : MgrState) (m : Msg)
    (h : tokenInv oneOff s) : tokenInv oneOff (step s m).1 := by
  obtain ⟨h1, h2⟩ := h
  cases m with
  | register t =>
    by_cases ht : t = s.securityToken
    · simp only [tokenInv, step, if_pos ht]
      exact ⟨by omega, fun _ => by omega⟩
    · simpa only [tokenInv, step, if_neg ht] using ⟨h1, h2⟩
  | nonRegister t =>
    by_cases ht : t = s.securityToken
    · simpa only [tokenInv, step, if_pos ht] using ⟨h1, h2⟩
    · simpa only [tokenInv, step, if_neg ht] using ⟨h1, h2⟩

lemma run_preserves_tokenInv (oneOff : ℕ) (s : MgrState) (msgs : List Msg)
    (h : tokenInv oneOff s) : tokenInv oneOff (run s msgs) := by
  induction msgs generalizing s with
  | nil => exact h
  | cons m ms ih => exact ih _ (step_preserves_tokenInv oneOff s m h)

end Token

/-- Claim C6 counterexample: before the `register` exchange has happened the
one-off token IS the handler's current security token, so a non-register verb
(e.g. a `ping`) carrying the one-off token is accepted as coming from the
handler (the lookup in `_handle_request_ping` succeeds and `last_checkin` is
updated) — contradicting "at no point in any message sequence does a
non-register verb carrying the one-off token get accepted". -/
theorem C6_counterexample_one_off_ping_before_register :
    Token.accepts (Token.initState 0) (Token.Msg.nonRegister 0) = true := rfl

/-- Claim C6 (amended): once the handler has registered (the one-off token was
consumed by `register` and a fresh token was issued in the `params` reply), the
one-off token never again authenticates any message: in every continuation of
the message sequence, a non-register verb carrying the one-off token is never
accepted as coming from that handler.  (Before registration the one-off token
is the current token and does authenticate any verb.) -/
theorem C6_one_off_token_dead_after_registration (oneOff : ℕ)
    (msgs : List Token.Msg)
    (h : (Token.run (Token.initState oneOff) msgs).registered = true) :
    Token.accepts (Token.run (Token.initState oneOff) msgs)
      (Token.Msg.nonRegister oneOff) = false := by
  have hinv : Token.tokenInv oneOff (Token.run (Token.initState oneOff) msgs) :=
    Token.run_preserves_tokenInv oneOff _ msgs
      ⟨Nat.lt_succ_self _, by simp [Token.initState]⟩
  have hne : (Token.run (Token.initState oneOff) msgs).securityToken ≠ oneOff :=
    hinv.2 h
  simp only [Token.accepts, Token.step]
  rw [if_neg (fun hc => hne hc.symm)]

/-- Witness for `C6_one_off_token_dead_after_registration`: after the sequence
consisting of just the successful registration, a ping carrying the old
one-off token 7 is rejected. -/
theorem C6_one_off_token_dead_after_registration_witness :
    (Token.run (Token.initState 7) [Token.Msg.register 7]).registered = true ∧
    Token.accepts (Token.run (Token.initState 7) [Token.Msg.register 7])
      (Token.Msg.nonRegister 7) = false :=
  ⟨rfl, C6_one_off_token_dead_after_registration 7 [Token.Msg.register 7] rfl⟩

/-! ## Content cache: download sidecar vs final file

Embedding of `yarely/core/content/caching.py`.  `Cache._save_file` (lines
77-104) opens `<name>.download` for writing, streams the source into it, and
finally renames it onto `<name>` (`shutil.move`).  `Cache.cache_file` (lines
130-147) first runs `file_cached` (strict: on a hash mismatch the stale final
file is deleted), returns early when cached and not refreshing, and otherwise
runs `_save_file`.  A disk state tracks, for one item, whether the final file
and/or the `.download` sidecar exist; an operation is modelled by the list of
disk states observable during its execution (one entry per filesystem
mutation point). -/

namespace CacheFS

/-- Existence of the two paths derived from one item's URI. -/
structure Disk where
  finalExists : Bool
  sidecarExists : Bool
deriving DecidableEq

/-- States observable while `_save_file` runs: unchanged before
`open(download_path, 'wb')`, sidecar present while chunks stream in, then the
atomic `shutil.move` replaces the final path and removes the sidecar. -/
def saveFileStates (s : Disk) : List Disk :=
  [s, { s with sidecarExists := true }, ⟨true, false⟩]

/-- `file_cached` with `strict=True` (the `cache_file` default): no file means
not cached; hashes (or URI fallback) matching means cached; a mismatch deletes
the stale final file (`os.remove`) and reports not cached.  `hashOk` abstracts
the hash comparison outcome. -/
def fileCachedStep (hashOk : Bool) (s : Disk) : Disk × Bool :=
  if s.finalExists = false then (s, false)
  else if hashOk then (s, true)
  else ({ s with finalExists := false }, false)

/-- `cache_file(content_item, refresh)`: the list of disk states observable
during the call. -/
def cacheFileStates (refresh hashOk : Bool) (s : Disk) : List Disk :=
  let cached := (fileCachedStep hashOk s).2
  let s1 := (fileCachedStep hashOk s).1
  if ¬refresh ∧ cached then [s, s1]
  else [s, s1] ++ saveFileStates s1

/-- The exclusivity property the claim asserts for every instant: not both the
final file and the download sidecar exist. -/
def exclusive (d : Disk) : Bool := !(d.finalExists && d.sidecarExists)

end CacheFS

/-- Claim C7 counterexample: calling the cache with `refresh = true` on an
item that is already cached (final file present, hashes fine) re-downloads
into `<name>.download` while the old `<name>` is still on disk, so there is an
instant at which BOTH paths exist — the claim explicitly includes this refresh
case, and it fails there. -/
theorem C7_counterexample_refresh_keeps_final_during_download :
    (CacheFS.cacheFileStates true true ⟨true, false⟩).all CacheFS.exclusive
        = false ∧
    (⟨true, true⟩ : CacheFS.Disk) ∈ CacheFS.cacheFileStates true true
        ⟨true, false⟩ := by
  constructor
  · rfl
  · simp [CacheFS.cacheFileStates, CacheFS.fileCachedStep,
      CacheFS.saveFileStates]

/-- Claim C7 (amended): whenever the final file is absent when the download
decision is taken (a fresh caching of a not-yet-cached item — including after
the strict hash check has deleted a stale copy), at every instant of the
execution at most one of the two paths exists: the data is only ever visible
under the `.download` name and the final name appears only through the atomic
rename.  Only a `refresh = true` call on a still-valid cached file keeps the
old final file on disk while the sidecar downloads. -/
theorem C7_download_exclusive_when_uncached (refresh hashOk : Bool)
    (s : CacheFS.Disk) (h : s.finalExists = false) :
    (CacheFS.cacheFileStates refresh hashOk s).all CacheFS.exclusive = true := by
  obtain ⟨f, d⟩ := s
  simp only at h
  subst h
  cases refresh <;> cases hashOk <;> cases d <;> rfl

/-- Witness for `C7_download_exclusive_when_uncached`: a plain (non-refresh)
cache of an uncached item. -/
theorem C7_download_exclusive_when_uncached_witness :
    (⟨false, false⟩ : CacheFS.Disk).finalExists = false ∧
    (CacheFS.cacheFileStates false true ⟨false, false⟩).all CacheFS.exclusive
      = true :=
  ⟨rfl, C7_download_exclusive_when_uncached false true ⟨false, false⟩ rfl⟩

/-! ## Constraints and the priority filter

Embedding of the constraint machinery used by the priority filter:
`yarely/core/helpers/base_classes/constraint.py` and
`SubscriptionElement.constraints_are_met`
(`yarely/core/subscriptions/subscription_parser.py` lines 358-408), plus
`PriorityFilter.filter_cds` (`yarely/core/scheduling/filters/priority_filter.py`
lines 37-73) over the depth-first condition filter.

Only evaluation under a `PriorityConstraintCondition` is embedded — the only
condition kind the priority filter (and claims C5/C10) ever passes.  Under
such a condition the constraint payloads other than the priority level are
irrelevant: `Constraint.is_met` first checks
`valid_comparison_conditions`, which is `[PriorityConstraintCondition]` for
`PriorityConstraint` only, `[DateTimeConstraintCondition]` for
date/time/day-of-week constraints, and empty for playback, preferred-duration,
output and unrecognised constraints, so every non-priority constraint raises
`ConstraintConditionMatchError` on a priority condition. -/

namespace Constraints

/-- `PriorityConstraint.ALL_PRIORITIES = ['lowest', 'low', 'medium', 'high',
'highest']` as an enumeration. -/
inductive Priority
  | lowest
  | low
  | medium
  | high
  | highest
deriving DecidableEq

/-- `PriorityConstraint.DEFAULT_VALUE = ALL_PRIORITIES[2]` (constraint.py
lines 376-387). -/
def defaultPriority : Priority := .medium

/-- `PriorityConstraintCondition(int)` resolves integer levels through
`ALL_PRIORITIES`; index 0 is lowest. -/
def priorityOfIndex : ℕ → Priority
  | 0 => .lowest
  | 1 => .low
  | 2 => .medium
  | 3 => .high
  | _ => .highest

/-- One parsed `Constraint`.  Payloads of the non-priority variants are
omitted: under a priority condition `is_met` never reads them (see the section
comment). -/
inductive Constr
  | priority (level : Priority)
  | dateRange
  | timeOfDay
  | dayOfWeek
  | playback
  | preferredDuration
  | output
deriving DecidableEq

/-- Whether a constraint is a `PriorityConstraint`. -/
def Constr.isPriority : Constr → Bool
  | .priority _ => true
  | _ => false

/-- The four ways `Constraint.is_met(condition)` can come back in
`constraints_are_met`: a boolean, a `ConstraintConditionMatchError`, or a
`ConstraintNotImplementedError`. -/
inductive IsMetOutcome
  | met
  | notMet
  | condMatchErr
  | notImplErr
deriving DecidableEq

/-- `Constraint.is_met` evaluated at a `PriorityConstraintCondition` carrying
level `c`: a `PriorityConstraint` compares its level for equality
(`PriorityConstraint._is_met`, constraint.py lines 438-450); every other
variant rejects the condition type with `ConstraintConditionMatchError`
(constraint.py lines 200-228). -/
def isMetAtPriority : Constr → Priority → IsMetOutcome
  | .priority lvl, c => if lvl = c then .met else .notMet
  | .dateRange, _ => .condMatchErr
  | .timeOfDay, _ => .condMatchErr
  | .dayOfWeek, _ => .condMatchErr
  | .playback, _ => .condMatchErr
  | .preferredDuration, _ => .condMatchErr
  | .output, _ => .condMatchErr

/-- The loop of `SubscriptionElement.constraints_are_met` (subscription_parser
lines 379-408) at a priority condition with `ignore_unimplemented=True`: walk
all constraints (the element's own and, with `recurse_up_tree`, the inherited
ones); a false result returns False at once; an evaluated result marks an
applicable constraint as found; both error kinds are swallowed.  When no
applicable constraint was found, the element plays only at the default
priority. -/
def constraintsMetLoop : List Constr → Bool → Priority → Bool
  | [], found, c => if found then true else decide (c = defaultPriority)
  | k :: ks, found, c =>
    match isMetAtPriority k c with
    | .met => constraintsMetLoop ks true c
    | .notMet => false
    | .condMatchErr => constraintsMetLoop ks found c
    | .notImplErr => constraintsMetLoop ks found c

/-- `constraints_are_met(condition=PriorityConstraintCondition(c))` for an
element whose combined (own + inherited) constraint list is `cs`. -/
def constraintsAreMet (cs : List Constr) (c : Priority) : Bool :=
  constraintsMetLoop cs false c

lemma constraintsMetLoop_no_priority (c : Priority) :
    ∀ (cs : List Constr), (∀ k ∈ cs, k.isPriority = false) →
      ∀ found, constraintsMetLoop cs found c
        = (if found then true else decide (c = defaultPriority)) := by
  intro cs
  induction cs with
  | nil => intro _ found; rfl
  | cons k ks ih =>
    intro h found
    have hk : k.isPriority = false := h k (List.mem_cons_self k ks)
    have hks : ∀ x ∈ ks, x.isPriority = false :=
      fun x hx => h x (List.mem_cons_of_mem k hx)
    cases k
    · simp [Constr.isPriority] at hk
    all_goals
      simp only [constraintsMetLoop, isMetAtPriority]
      exact ih hks found

end Constraints

/-- Claim C5: an element that carries no `PriorityConstraint` (neither its own
nor inherited) passes `constraints_are_met` at a priority condition `c`
exactly when `c` is the default priority `medium`; the `PriorityFilter` hence
keeps such an item exactly at the medium level. -/
theorem C5_no_priority_constraint_matches_medium_only
    (cs : List Constraints.Constr) (c : Constraints.Priority)
    (h : ∀ k ∈ cs, k.isPriority = false) :
    Constraints.constraintsAreMet cs c = decide (c = Constraints.Priority.medium) := by
  rw [Constraints.constraintsAreMet,
    Constraints.constraintsMetLoop_no_priority c cs h false, if_neg Bool.false_ne_true]
  rfl

/-- Witness for `C5_no_priority_constraint_matches_medium_only`: an element
whose constraints are a playback and a time constraint is kept at `medium` and
nowhere else. -/
theorem C5_no_priority_constraint_matches_medium_only_witness :
    (∀ k ∈ [Constraints.Constr.playback, Constraints.Constr.timeOfDay],
        Constraints.Constr.isPriority k = false) ∧
    Constraints.constraintsAreMet
        [Constraints.Constr.playback, Constraints.Constr.timeOfDay]
        Constraints.Priority.medium
      = decide (Constraints.Priority.medium = Constraints.Priority.medium) ∧
    Constraints.constraintsAreMet
        [Constraints.Constr.playback, Constraints.Constr.timeOfDay]
        Constraints.Priority.high
      = decide (Constraints.Priority.high = Constraints.Priority.medium) :=
  ⟨by decide,
    C5_no_priority_constraint_matches_medium_only _ _ (by decide),
    C5_no_priority_constraint_matches_medium_only _ _ (by decide)⟩

/-! ## Priority filter over a CDS tree

The CDS is a tree whose interior nodes are content sets and whose leaves are
content items, each carrying a constraint list
(`subscription_parser.ContentDescriptorSet` / `ContentItem`).
`DepthFirstFilter._remove_recursively` walks a copy of the tree and removes
from its parent every content item for which `keep_item` is false;
`ConditionFilter.keep_item` is `constraints_are_met(condition,
ignore_unimplemented=True, recurse_up_tree=True)`, inherited constraints being
those of all enclosing sets (own first, then upwards).  Sets themselves are
never removed, even when emptied. -/

namespace Constraints

/-- A CDS node: a content set with children, or a content item. -/
inductive CDSNode
  | cset (cs : List Constr) (children : List CDSNode)
  | item (cs : List Constr)

mutual

/-- One pass of the depth-first condition filter under priority condition
`cond`; `inherited` lists the constraints of all enclosing sets. -/
def filterNode (cond : Priority) (inherited : List Constr) : CDSNode → CDSNode
  | .item cs => .item cs
  | .cset cs children =>
    .cset cs (filterChildren cond (cs ++ inherited) children)

/-- Children loop of `_remove_recursively`: items are kept iff
`constraints_are_met` holds for their own plus inherited constraints; sets are
recursed into. -/
def filterChildren (cond : Priority) (inh : List Constr) :
    List CDSNode → List CDSNode
  | [] => []
  | .item cs :: rest =>
    if constraintsAreMet (cs ++ inh) cond then
      .item cs :: filterChildren cond inh rest
    else
      filterChildren cond inh rest
  | .cset cs ch :: rest =>
    filterNode cond inh (.cset cs ch) :: filterChildren cond inh rest

end

mutual

/-- `len(cds.get_content_items(flatten=True))`. -/
def countItems : CDSNode → ℕ
  | .item _ => 1
  | .cset _ ch => countItemsList ch

def countItemsList : List CDSNode → ℕ
  | [] => 0
  | c :: rest => countItems c + countItemsList rest

end

/-- `reversed(range(len(ALL_PRIORITIES)))` mapped through
`PriorityConstraintCondition(int)`: the levels tried by
`PriorityFilter.filter_cds`, highest first. -/
def levelsHighestFirst : List Priority :=
  [.highest, .high, .medium, .low, .lowest]

/-- The level loop of `PriorityFilter.filter_cds` (priority_filter.py lines
47-73): run the condition filter afresh on the input at each level, return the
first result with at least one content item; when every level comes up empty,
fall back to returning the (unfiltered) input CDS. -/
def priorityFilterLoop (cds : CDSNode) : List Priority → CDSNode
  | [] => cds
  | l :: ls =>
    let t := filterNode l [] cds
    if 0 < countItems t then t else priorityFilterLoop cds ls

/-- `PriorityFilter.filter_cds`. -/
def priorityFilterCds (cds : CDSNode) : CDSNode :=
  priorityFilterLoop cds levelsHighestFirst

end Constraints

/-- Claim C10: when every priority level from highest to lowest yields zero
content items (reachable, e.g., when an item's own `PriorityConstraint`
conflicts with one inherited from its parent set, so that no single level
satisfies both), `PriorityFilter.filter_cds` returns the original input CDS
with all its items rather than an empty CDS. -/
theorem C10_priority_filter_falls_back_to_input (cds : Constraints.CDSNode)
    (h : ∀ l ∈ Constraints.levelsHighestFirst,
        Constraints.countItems (Constraints.filterNode l [] cds) = 0) :
    Constraints.priorityFilterCds cds = cds := by
  have h0 := h .highest (by simp [Constraints.levelsHighestFirst])
  have h1 := h .high (by simp [Constraints.levelsHighestFirst])
  have h2 := h .medium (by simp [Constraints.levelsHighestFirst])
  have h3 := h .low (by simp [Constraints.levelsHighestFirst])
  have h4 := h .lowest (by simp [Constraints.levelsHighestFirst])
  simp only [Constraints.priorityFilterCds, Constraints.levelsHighestFirst,
    Constraints.priorityFilterLoop, h0, h1, h2, h3, h4,
    lt_self_iff_false, if_false]

/-- Witness for `C10_priority_filter_falls_back_to_input`: a set constrained
to priority `low` containing one item additionally constrained to `high`; the
item matches no single level, every level filters to zero items, and the
filter returns the input tree itself. -/
theorem C10_priority_filter_falls_back_to_input_witness :
    (∀ l ∈ Constraints.levelsHighestFirst,
      Constraints.countItems (Constraints.filterNode l []
        (Constraints.CDSNode.cset [Constraints.Constr.priority .low]
          [Constraints.CDSNode.item [Constraints.Constr.priority .high]])) = 0) ∧
    Constraints.priorityFilterCds
        (Constraints.CDSNode.cset [Constraints.Constr.priority .low]
          [Constraints.CDSNode.item [Constraints.Constr.priority .high]])
      = Constraints.CDSNode.cset [Constraints.Constr.priority .low]
          [Constraints.CDSNode.item [Constraints.Constr.priority .high]] := by
  refine ⟨?_, C10_priority_filter_falls_back_to_input _ ?_⟩ <;>
    · intro l hl
      simp only [Constraints.levelsHighestFirst, List.mem_cons,
        List.not_mem_nil, or_false] at hl
      rcases hl with rfl | rfl | rfl | rfl | rfl <;> rfl

/-! ## Display manager: at most one visible-and-registered renderer

Embedding of the renderer bookkeeping in
`yarely/core/scheduling/display.py`.  The `_renderers` dictionary (keyed by
freshly generated `uuid4` strings) is modelled as a list of records; every
operation is one of the handlers of the source, run atomically (the source
serialises dictionary access under `_renderers_lock`; the asynchronous
`renderer.stop()` thread only clears `is_visible` of a record that the same
call path subsequently deletes, so the sequential composition below reproduces
the post-quiescence dictionary contents of each handler).

* `_start_renderer` (lines 502-570) stores a fresh record with
  `is_visible=False, has_registered=False`;
* `_handle_register` (lines 467-490) sets `has_registered=True` for the
  renderer matched by its token (here: its uuid);
* `_set_renderer_visible` (lines 286-321) marks the renderer visible, marks
  all OTHER registered renderers at the same position not visible
  (`_stop_renderer` / `ExecutingRenderer.stop`, lines 82-89), then
  `_cleanup_renderers` (lines 147-174) deletes every registered non-visible
  renderer at that position;
* `remove_item` (lines 635-647) stops and deletes the visible renderer at a
  position; `remove_items` (lines 649-658) deletes everything. -/

namespace Display

/-- One `ExecutingRenderer` record as stored in `DisplayManager._renderers`. -/
structure RRec where
  uuid : ℕ
  position : ℕ
  visible : Bool
  registered : Bool
deriving DecidableEq

/-- The `_renderers` dictionary contents. -/
abbrev DMState := List RRec

/-- `DisplayManager._get_renderer`. -/
def findRenderer (u : ℕ) (s : DMState) : Option RRec :=
  s.find? (fun r => r.uuid == u)

/-- `_start_renderer`: store a record with `is_visible=False,
has_registered=False` under a fresh uuid (dictionary assignment overwrites). -/
def startRenderer (u p : ℕ) (s : DMState) : DMState :=
  s.filter (fun r => r.uuid != u) ++ [⟨u, p, false, false⟩]

/-- Elementwise effect of `_handle_register` on the matched renderer. -/
def registerFn (u : ℕ) (r : RRec) : RRec :=
  if r.uuid == u then { r with registered := true } else r

/-- `_handle_register`: mark the matched renderer as registered (an unmatched
token is logged as a spoof attempt and changes nothing). -/
def registerRenderer (u : ℕ) (s : DMState) : DMState :=
  s.map (registerFn u)

/-- `renderer.is_visible = True` for the renderer being made visible. -/
def markVisibleFn (u : ℕ) (r : RRec) : RRec :=
  if r.uuid == u then { r with visible := true } else r

/-- The stop loop of `_set_renderer_visible`: every OTHER registered renderer
at the same position is stopped, i.e. marked not visible
(`ExecutingRenderer.stop`). -/
def stopOthersFn (u p : ℕ) (r : RRec) : RRec :=
  if r.uuid != u && r.registered && r.position == p then
    { r with visible := false }
  else r

/-- `_cleanup_renderers(position)`: keep a renderer unless it sits at the
position, has registered, and is not visible. -/
def cleanupKeepFn (p : ℕ) (r : RRec) : Bool :=
  !(r.position == p && r.registered && !r.visible)

/-- `_set_renderer_visible` (without the timestamp, which the claim does not
mention): mark visible, stop the other registered renderers at the position,
then clean up. -/
def setRendererVisible (u : ℕ) (s : DMState) : DMState :=
  match findRenderer u s with
  | none => s
  | some r0 =>
    ((s.map (markVisibleFn u)).map (stopOthersFn u r0.position)).filter
      (cleanupKeepFn r0.position)

/-- The operations of the display manager that touch the dictionary. -/
inductive DMOp
  | start (uuid position : ℕ)
  | register (uuid : ℕ)
  | setVisible (uuid : ℕ)
  | removeItem (position : ℕ)
  | removeItems

/-- Apply one operation.  With `registeredOnly := false` this is the source as
written: `_handle_request_finished_loading` does not check `has_registered`
before scheduling `_set_renderer_visible`.  With `registeredOnly := true` the
visibility transition only fires for a renderer that has registered — the
renderer protocol, under which a renderer reports `finished_loading` only
after its `register`/`params` exchange. -/
def applyOp (registeredOnly : Bool) (s : DMState) : DMOp → DMState
  | .start u p => startRenderer u p s
  | .register u => registerRenderer u s
  | .setVisible u =>
    if registeredOnly then
      match findRenderer u s with
      | some r0 => if r0.registered then setRendererVisible u s else s
      | none => s
    else setRendererVisible u s
  | .removeItem p =>
    match s.find? (fun r => r.position == p && r.visible) with
    | some r0 => s.filter (fun r => r.uuid != r0.uuid)
    | none => s
  | .removeItems => []

/-- Run a sequence of operations from the empty dictionary. -/
def runOps (registeredOnly : Bool) (ops : List DMOp) : DMState :=
  ops.foldl (applyOp registeredOnly) []

/-- How many renderers at position `p` are simultaneously visible and
registered. -/
def countVisReg (s : DMState) (p : ℕ) : ℕ :=
  s.countP (fun r => r.visible && r.registered && r.position == p)

/-- The inductive invariant: uuids are unique (they are fresh `uuid4`s),
every visible renderer has registered, and at most one renderer per position
is both visible and registered. -/
def goodState (s : DMState) : Prop :=
  (s.map RRec.uuid).Nodup ∧
  (∀ r ∈ s, r.visible = true → r.registered = true) ∧
  (∀ p, countVisReg s p ≤ 1)

lemma countP_uuid_le_one (s : DMState) (hn : (s.map RRec.uuid).Nodup) (u : ℕ) :
    s.countP (fun r => r.uuid == u) ≤ 1 := by
  induction s with
  | nil => simp
  | cons r rest ih =>
    simp only [List.map_cons, List.nodup_cons] at hn
    rw [List.countP_cons]
    by_cases hu : r.uuid = u
    · have hzero : rest.countP (fun x => x.uuid == u) = 0 := by
        rw [List.countP_eq_zero]
        intro x hx hxu
        simp only [beq_iff_eq] at hxu
        apply hn.1
        rw [hu, ← hxu]
        exact List.mem_map_of_mem RRec.uuid hx
      simp [hzero, hu]
    · have := ih hn.2
      simp only [beq_iff_eq, hu, if_false]
      omega

lemma goodState_nil : goodState [] := by
  refine ⟨List.nodup_nil, by simp, fun p => by simp [countVisReg]⟩

lemma goodState_filter (f : RRec → Bool) (s : DMState) (h : goodState s) :
    goodState (s.filter f) := by
  obtain ⟨hn, hvr, hc⟩ := h
  refine ⟨hn.sublist ((List.filter_sublist s).map RRec.uuid), ?_, ?_⟩
  · intro r hr
    exact hvr r (List.mem_of_mem_filter hr)
  · intro p
    exact le_trans (((List.filter_sublist s).countP_le _)) (hc p)

lemma goodState_start (u p : ℕ) (s : DMState) (h : goodState s) :
    goodState (startRenderer u p s) := by
  obtain ⟨hn, hvr, hc⟩ := h
  have hsub : ((s.filter (fun r => r.uuid != u)).map RRec.uuid).Sublist
      (s.map RRec.uuid) := (List.filter_sublist s).map RRec.uuid
  refine ⟨?_, ?_, ?_⟩
  · rw [startRenderer, List.map_append]
    apply List.Nodup.append (hn.sublist hsub) (List.nodup_singleton u)
    intro x hx hx1
    simp only [List.mem_singleton] at hx1
    subst hx1
    obtain ⟨r, hr, hru⟩ := List.mem_map.mp hx
    have := (List.mem_filter.mp hr).2
    simp only [bne_iff_ne, ne_eq] at this
    exact this hru
  · intro r hr
    rcases List.mem_append.mp hr with h1 | h1
    · exact hvr r (List.mem_of_mem_filter h1)
    · simp only [List.mem_singleton] at h1
      subst h1
      intro hfalse
      cases hfalse
  · intro q
    rw [startRenderer, countVisReg, List.countP_append]
    have h1 : (s.filter (fun r => r.uuid != u)).countP
        (fun r => r.visible && r.registered && r.position == q)
        ≤ countVisReg s q := (List.filter_sublist s).countP_le _
    have h2 : List.countP (fun r => r.visible && r.registered && r.position == q)
        [(⟨u, p, false, false⟩ : RRec)] = 0 := by simp
    have := hc q
    omega

lemma goodState_register (u : ℕ) (s : DMState) (h : goodState s) :
    goodState (registerRenderer u s) := by
  obtain ⟨hn, hvr, hc⟩ := h
  have huuid : ∀ r, (registerFn u r).uuid = r.uuid := by
    intro r
    rw [registerFn]
    split <;> rfl
  refine ⟨?_, ?_, ?_⟩
  · rw [registerRenderer, List.map_map]
    have : s.map (RRec.uuid ∘ registerFn u) = s.map RRec.uuid :=
      List.map_congr_left (fun r _ => huuid r)
    rw [this]
    exact hn
  · intro r hr hvis
    obtain ⟨x, hx, hxr⟩ := List.mem_map.mp hr
    subst hxr
    by_cases hx2 : (x.uuid == u) = true
    · simp [registerFn, hx2]
    · simp only [registerFn, hx2, if_false] at hvis ⊢
      exact hvr x hx hvis
  · intro q
    rw [registerRenderer, countVisReg, List.countP_map]
    refine le_trans (List.countP_mono_left ?_) (hc q)
    intro r hr hpred
    simp only [Function.comp_apply, registerFn] at hpred
    by_cases hx2 : (r.uuid == u) = true
    · rw [if_pos hx2] at hpred
      simp only [Bool.and_eq_true, beq_iff_eq] at hpred ⊢
      exact ⟨⟨hpred.1.1, hvr r hr hpred.1.1⟩, hpred.2⟩
    · rw [if_neg hx2] at hpred
      exact hpred

lemma findRenderer_uuid (u : ℕ) (s : DMState) (r0 : RRec)
    (hfind : findRenderer u s = some r0) : r0 ∈ s ∧ r0.uuid = u := by
  refine ⟨List.mem_of_find?_eq_some hfind, ?_⟩
  have := List.find?_some hfind
  simpa [beq_iff_eq] using this

lemma setVisible_transform_eval (u p0 : ℕ) (r : RRec) :
    stopOthersFn u p0 (markVisibleFn u r) =
      if r.uuid = u then { r with visible := true }
      else if r.registered = true ∧ r.position = p0 then
        { r with visible := false }
      else r := by
  by_cases hu : r.uuid = u
  · simp [markVisibleFn, stopOthersFn, hu]
  · by_cases hrg : r.registered = true
    · by_cases hp : r.position = p0
      · simp [markVisibleFn, stopOthersFn, hu, hrg, hp]
      · simp [markVisibleFn, stopOthersFn, hu, hrg, hp]
    · simp [markVisibleFn, stopOthersFn, hu, hrg]

lemma setVisible_eq (u : ℕ) (s : DMState) (r0 : RRec)
    (hfind : findRenderer u s = some r0) :
    setRendererVisible u s
      = ((s.map (markVisibleFn u)).map (stopOthersFn u r0.position)).filter
          (cleanupKeepFn r0.position) := by
  rw [setRendererVisible, hfind]

lemma goodState_setVisible (u : ℕ) (s : DMState) (h : goodState s)
    (r0 : RRec) (hfind : findRenderer u s = some r0)
    (hreg : r0.registered = true) :
    goodState (setRendererVisible u s) := by
  obtain ⟨hn, hvr, hc⟩ := h
  obtain ⟨hr0mem, hr0uuid⟩ := findRenderer_uuid u s r0 hfind
  rw [setVisible_eq u s r0 hfind]
  have huniq : ∀ r ∈ s, r.uuid = u → r = r0 := fun r hr hru =>
    List.inj_on_of_nodup_map hn hr hr0mem (by rw [hru, hr0uuid])
  have hmem : ∀ r2 ∈ ((s.map (markVisibleFn u)).map
        (stopOthersFn u r0.position)).filter (cleanupKeepFn r0.position),
      ∃ r ∈ s, r2 = stopOthersFn u r0.position (markVisibleFn u r) := by
    intro r2 hr2
    have hr2m := List.mem_of_mem_filter hr2
    obtain ⟨r1, hr1, hr1e⟩ := List.mem_map.mp hr2m
    obtain ⟨r, hr, hre⟩ := List.mem_map.mp hr1
    exact ⟨r, hr, by rw [← hr1e, ← hre]⟩
  refine ⟨?_, ?_, ?_⟩
  · -- uuids stay unique
    apply List.Nodup.sublist ((List.filter_sublist _).map RRec.uuid)
    rw [List.map_map, List.map_map]
    have he : ∀ r ∈ s,
        ((RRec.uuid ∘ stopOthersFn u r0.position) ∘ markVisibleFn u) r
          = RRec.uuid r := by
      intro r _
      simp only [Function.comp_apply, setVisible_transform_eval]
      split
      · rfl
      · split <;> rfl
    rw [List.map_congr_left he]
    exact hn
  · -- visible renderers have registered
    intro r2 hr2 hvis
    obtain ⟨r, hr, hr2e⟩ := hmem r2 hr2
    rw [setVisible_transform_eval] at hr2e
    subst hr2e
    by_cases hu : r.uuid = u
    · rw [if_pos hu]
      have := huniq r hr hu
      subst this
      exact hreg
    · rw [if_neg hu] at hvis ⊢
      by_cases hstop : r.registered = true ∧ r.position = r0.position
      · rw [if_pos hstop] at hvis
        exact absurd hvis (by simp)
      · rw [if_neg hstop] at hvis ⊢
        exact hvr r hr hvis
  · -- at most one visible+registered renderer per position
    intro q
    rw [countVisReg, List.countP_filter, List.countP_map, List.countP_map]
    by_cases hq : q = r0.position
    · subst hq
      refine le_trans ?_ (countP_uuid_le_one s hn u)
      apply List.countP_mono_left
      intro r _ hpred
      by_cases hu : r.uuid = u
      · simp [hu]
      · exfalso
        simp only [Function.comp_apply, setVisible_transform_eval,
          if_neg hu] at hpred
        by_cases hrg : r.registered = true
        · by_cases hp : r.position = r0.position
          · rw [if_pos ⟨hrg, hp⟩] at hpred
            simp [cleanupKeepFn, hp, hrg] at hpred
          · rw [if_neg (fun hand => hp hand.2)] at hpred
            simp only [Bool.and_eq_true, beq_iff_eq] at hpred
            exact hp hpred.1.2
        · rw [if_neg (fun hand => hrg hand.1)] at hpred
          simp only [Bool.and_eq_true, beq_iff_eq] at hpred
          exact hrg hpred.1.1.2
    · refine le_trans ?_ (hc q)
      apply List.countP_mono_left
      intro r hr hpred
      simp only [Function.comp_apply, setVisible_transform_eval] at hpred
      by_cases hu : r.uuid = u
      · exfalso
        rw [if_pos hu] at hpred
        simp only [Bool.and_eq_true, beq_iff_eq] at hpred
        apply hq
        have hp2 := hpred.1.2
        rw [← hp2, huniq r hr hu]
      · rw [if_neg hu] at hpred
        by_cases hstop : r.registered = true ∧ r.position = r0.position
        · rw [if_pos hstop] at hpred
          simp at hpred
        · rw [if_neg hstop] at hpred
          simp only [Bool.and_eq_true, beq_iff_eq] at hpred ⊢
          exact hpred.1

lemma goodState_applyOp (op : DMOp) (s : DMState) (h : goodState s) :
    goodState (applyOp true s op) := by
  cases op with
  | start u p => exact goodState_start u p s h
  | register u => exact goodState_register u s h
  | setVisible u =>
    rw [applyOp, if_pos rfl]
    cases hfind : findRenderer u s with
    | none => exact h
    | some r0 =>
      show goodState (if r0.registered = true then setRendererVisible u s else s)
      by_cases hreg : r0.registered = true
      · rw [if_pos hreg]
        exact goodState_setVisible u s h r0 hfind hreg
      · rw [if_neg hreg]
        exact h
  | removeItem p =>
    rw [applyOp]
    cases s.find? (fun r => r.position == p && r.visible) with
    | none => exact h
    | some r0 => exact goodState_filter _ s h
  | removeItems => exact goodState_nil

lemma goodState_foldl (ops : List DMOp) :
    ∀ s : DMState, goodState s → goodState (ops.foldl (applyOp true) s) := by
  induction ops with
  | nil => intro s h; exact h
  | cons op rest ih =>
    intro s h
    exact ih _ (goodState_applyOp op s h)

end Display

/-- Claim C1 counterexample: the invariant is violated in a state reachable
through the display manager's own handlers.  `finished_loading` (and hence
`_set_renderer_visible`) does not require the renderer to have registered, so
the sequence — start renderer 1 and renderer 2 at position 0; renderer 2
reports `finished_loading` (made visible while unregistered, so the stop loop
and cleanup skip it thereafter); renderer 1 registers and reports
`finished_loading` (made visible; renderer 2 is skipped as unregistered);
renderer 2 finally registers — leaves BOTH renderers visible and registered at
position 0.  The `register` handler therefore does not preserve the claimed
invariant. -/
theorem C1_counterexample_two_visible_registered :
    Display.countVisReg
      (Display.runOps false
        [Display.DMOp.start 1 0, Display.DMOp.start 2 0,
         Display.DMOp.setVisible 2, Display.DMOp.register 1,
         Display.DMOp.setVisible 1, Display.DMOp.register 2]) 0 = 2 := by
  rfl

/-- Claim C1 (amended): provided the post-fade visibility transition
`_set_renderer_visible` only ever fires for a renderer that has registered —
which is how the system behaves, since a renderer reports `finished_loading`
only after completing its `register`/`params` exchange — every state of the
renderers dictionary reachable from empty through the display manager's
operations (starting a renderer, renderer registration, the visibility
transition, and item removal) has at most one renderer per position that is
simultaneously visible and registered. -/
theorem C1_at_most_one_visible_registered_per_position
    (ops : List Display.DMOp) (p : ℕ) :
    Display.countVisReg (Display.runOps true ops) p ≤ 1 :=
  (Display.goodState_foldl ops [] Display.goodState_nil).2.2 p

/-! ## Subscription persistence: reassembly of stored trees

Embedding of `PersistentStore.to_etree_elem`
(`yarely/core/subscriptions/subscription_manager/persistence.py` lines
242-322).  XML is modelled structurally (tag, attributes, text, children);
the three tables are association lists.  `select_xml` returning no row and an
`ElementTree.ParseError` on the stored text both yield `None`, so
`xmlTable` only lists ids with parsable XML.  The function returns inside
`Except String`: `.error` models an uncaught Python exception
(`ValueError` from `list.index`/`remove`, `AttributeError` from
`None.strip()`, `RecursionError` for unbounded recursion), `.ok none` models
`return None`, `.ok (some t)` a reassembled tree.

Faithfulness notes: `ContentDescriptorSet(elem)` /
`ConstraintsParser` are embedded only through their effect used here — turning
the placeholder's `<constraints>` element into the flat list of constraint
roots (children of a `<scheduling-constraints>` wrapper are flattened, any
other child is taken as-is); parse-time validation errors of malformed
placeholders are outside the model.  Python's `list.index` and
`Element.remove` compare by object identity; the model compares structurally,
which coincides on trees without duplicate placeholder elements. -/

namespace Persist

/-- An XML element: tag, attributes, text, children. -/
inductive XElem where
  | mk (tag : String) (attrs : List (String × String)) (text : Option String)
      (children : List XElem)

def XElem.tag : XElem → String
  | .mk t _ _ _ => t

def XElem.attrs : XElem → List (String × String)
  | .mk _ a _ _ => a

def XElem.text : XElem → Option String
  | .mk _ _ x _ => x

def XElem.children : XElem → List XElem
  | .mk _ _ _ c => c

/-- Replace the child list (models in-place mutation of an element). -/
def XElem.withChildren : XElem → List XElem → XElem
  | .mk t a x _, cs => .mk t a x cs

mutual

/-- Structural equality of elements (Python compares placeholder objects by
identity; on duplicate-free trees this coincides). -/
def xeq : XElem → XElem → Bool
  | .mk t1 a1 x1 c1, .mk t2 a2 x2 c2 =>
    t1 == t2 && a1 == a2 && x1 == x2 && xeqList c1 c2

def xeqList : List XElem → List XElem → Bool
  | [], [] => true
  | a :: as1, b :: bs1 => xeq a b && xeqList as1 bs1
  | _, _ => false

end

/-- `elem.attrib.get(key, default)`. -/
def getAttrD (e : XElem) (key dflt : String) : String :=
  match e.attrs.find? (fun kv => kv.1 == key) with
  | some kv => kv.2
  | none => dflt

/-- `elem.find(tag)`: first direct child with the tag. -/
def findChild (e : XElem) (t : String) : Option XElem :=
  e.children.find? (fun c => c.tag == t)

/-- Python `str.strip()` (whitespace from both ends). -/
def pyStrip (s : String) : String :=
  ⟨((s.data.dropWhile Char.isWhitespace).reverse.dropWhile
      Char.isWhitespace).reverse⟩

/-- The constraint roots the placeholder contributes
(`ContentDescriptorSet(elem)` + `get_constraints(recurse_up_tree=False,
return_as_etree_elem=True)`): children of the placeholder's `<constraints>`
element, with each `<scheduling-constraints>` wrapper flattened to its
children (constraint.py, `ConstraintsParser.__init__`). -/
def constraintRoots (e : XElem) : List XElem :=
  match findChild e "constraints" with
  | none => []
  | some ce =>
    ce.children.flatMap
      (fun c => if c.tag == "scheduling-constraints" then c.children else [c])

/-- The fresh `<constraints>` element built from the placeholder
(`cstrnts_elm_orig`). -/
def placeholderConstraintsElem (e : XElem) : XElem :=
  .mk "constraints" [] none (constraintRoots e)

/-- In-place mutation of the first `<constraints>` child
(`cnstrnts_elm_new.extend(...)`). -/
def replaceFirstConstraints : List XElem → XElem → List XElem
  | [], _ => []
  | c :: rest, newC =>
    if c.tag == "constraints" then newC :: rest
    else c :: replaceFirstConstraints rest newC

/-- The constraint merge (persistence.py lines 296-309): extend the fetched
subtree's `<constraints>` with the placeholder's constraint children, or
attach the placeholder's `<constraints>` element when the subtree has none. -/
def mergeConstraints (placeholder newElem : XElem) : XElem :=
  let orig := placeholderConstraintsElem placeholder
  match findChild newElem "constraints" with
  | some ce =>
    newElem.withChildren
      (replaceFirstConstraints newElem.children
        (ce.withChildren (ce.children ++ orig.children)))
  | none => newElem.withChildren (newElem.children ++ [orig])

/-- The persistent store: `xml(xml_id, xml)` restricted to parsable rows,
`uri(xml_id, uri)` keyed by uri, and `xml_link(parent_id, child_id)`. -/
structure PStore where
  xmlTable : List (ℕ × XElem)
  uriTable : List (String × ℕ)
  linkTable : List (ℕ × ℕ)

/-- `select_xml` + `ElementTree.XML` (both failure modes give `None`). -/
def lookupXml (st : PStore) (i : ℕ) : Option XElem :=
  (st.xmlTable.find? (fun kv => kv.1 == i)).map Prod.snd

/-- `select_xml_id_where_uri`. -/
def lookupUri (st : PStore) (u : String) : Option ℕ :=
  (st.uriTable.find? (fun kv => kv.1 == u)).map Prod.snd

/-- `select_child_ids`. -/
def childIds (st : PStore) (i : ℕ) : List ℕ :=
  (st.linkTable.filter (fun kv => kv.1 == i)).map Prod.snd

/-- Early exits of `to_etree_elem`: `return None`, or an uncaught Python
exception. -/
inductive Exit
  | retNone
  | exc (msg : String)

/-- `list.index(elem)` (raises `ValueError` when absent). -/
def indexOfElem : List XElem → XElem → Except Exit ℕ
  | [], _ => .error (.exc "ValueError")
  | c :: rest, e =>
    if xeq c e then .ok 0
    else
      match indexOfElem rest e with
      | .ok i => .ok (i + 1)
      | .error e2 => .error e2

/-- `Element.remove(elem)`: drop the first matching child (raises
`ValueError` when absent). -/
def removeElem : List XElem → XElem → Except Exit (List XElem)
  | [], _ => .error (.exc "ValueError")
  | c :: rest, e =>
    if xeq c e then .ok rest
    else
      match removeElem rest e with
      | .ok tail => .ok (c :: tail)
      | .error e2 => .error e2

/-- The `for source in sources` loop of `to_etree_elem` for one remote
placeholder `elem`.  `recur` is the recursive reassembly of a child id;
`cur` is the parent's current child list (the mutable `etree`); `used`
accumulates `used_children`. -/
def processSources (recur : ℕ → Except String (Option XElem)) (st : PStore)
    (dbChildren : List ℕ) (elem srcs : XElem) :
    List XElem → List XElem → List ℕ → Except Exit (List XElem × List ℕ)
  | [], cur, used => .ok (cur, used)
  | source :: more, cur, used =>
    -- `if sources.text is None: return None` (the source checks the
    -- CONTAINER's text each iteration)
    if srcs.text = none then .error .retNone
    else
      match source.text with
      | none => .error (.exc "AttributeError")  -- None.strip()
      | some uriRaw =>
        match lookupUri st (pyStrip uriRaw) with
        | none => processSources recur st dbChildren elem srcs more cur used
        | some childId =>
          if childId ∈ dbChildren then
            match recur childId with
            | .error m => .error (.exc m)
            | .ok none =>
              -- the placeholder is removed even when the child reassembles
              -- to None
              match removeElem cur elem with
              | .error e2 => .error e2
              | .ok cur2 =>
                processSources recur st dbChildren elem srcs more cur2
                  (used ++ [childId])
            | .ok (some newElem) =>
              let merged := mergeConstraints elem newElem
              match indexOfElem cur elem with
              | .error e2 => .error e2
              | .ok i =>
                match removeElem (cur.take i ++ [merged] ++ cur.drop i) elem with
                | .error e2 => .error e2
                | .ok cur3 =>
                  processSources recur st dbChildren elem srcs more cur3
                    (used ++ [childId])
          else
            -- `child_id not in db_children`: log a DB-integrity warning and
            -- carry on
            processSources recur st dbChildren elem srcs more cur used

/-- The `for elem in list(etree.findall('content-set'))` loop: non-remote
sets are skipped; a remote placeholder without `requires-file` or without
`sources` makes the whole reassembly return `None`. -/
def processContentSets (recur : ℕ → Except String (Option XElem)) (st : PStore)
    (dbChildren : List ℕ) :
    List XElem → List XElem → List ℕ → Except Exit (List XElem × List ℕ)
  | [], cur, used => .ok (cur, used)
  | elem :: rest, cur, used =>
    if getAttrD elem "type" "remote" == "remote" then
      match findChild elem "requires-file" with
      | none => .error .retNone
      | some rf =>
        match findChild rf "sources" with
        | none => .error .retNone
        | some srcs =>
          match processSources recur st dbChildren elem srcs srcs.children
              cur used with
          | .error e2 => .error e2
          | .ok (cur2, used2) =>
            processContentSets recur st dbChildren rest cur2 used2
    else processContentSets recur st dbChildren rest cur used

/-- `PersistentStore.to_etree_elem(xml_id)` with explicit recursion fuel (the
source recursion is unbounded; every theorem below supplies enough fuel).
The trailing `used_children` integrity check only logs and does not affect
the result. -/
def toEtree (st : PStore) : ℕ → ℕ → Except String (Option XElem)
  | 0, _ => .error "RecursionError"
  | fuel + 1, xmlId =>
    match lookupXml st xmlId with
    | none => .ok none
    | some etree =>
      match processContentSets (toEtree st fuel) st (childIds st xmlId)
          (etree.children.filter (fun c => c.tag == "content-set"))
          etree.children [] with
      | .error (.exc m) => .error m
      | .error .retNone => .ok none
      | .ok (cur, _) => .ok (some (etree.withChildren cur))

mutual

theorem xeq_refl : ∀ e : XElem, xeq e e = true
  | .mk t a x c => by
    rw [xeq]
    simp [xeqList_refl c]

theorem xeqList_refl : ∀ l : List XElem, xeqList l l = true
  | [] => rfl
  | e :: rest => by
    rw [xeqList]
    simp [xeq_refl e, xeqList_refl rest]

end

/-- A parent set whose only child is a remote placeholder for `uri`
carrying scheduling constraints `pcs`:
`<content-set><content-set type="remote"><constraints>
<scheduling-constraints>pcs</scheduling-constraints></constraints>
<requires-file><sources><uri>u</uri></sources></requires-file>
</content-set></content-set>`. -/
def mkPlaceholder (u : String) (pcs : List XElem) : XElem :=
  .mk "content-set" [("type", "remote")] none
    [.mk "constraints" [] none [.mk "scheduling-constraints" [] none pcs],
     .mk "requires-file" [] none
       [.mk "sources" [] (some " ") [.mk "uri" [] (some u) []]]]

/-- The enclosing parent tree as persisted for the parent xml id. -/
def mkParent (u : String) (pcs : List XElem) : XElem :=
  .mk "content-set" [] none [mkPlaceholder u pcs]

/-- The persisted subtree the placeholder's URI resolves to: an inline set
with optional `<constraints>` (children `cc`) followed by `kids`. -/
def mkChildTree (cc : Option (List XElem)) (kids : List XElem) : XElem :=
  .mk "content-set" [("type", "inline")] none
    ((match cc with
      | some l => [XElem.mk "constraints" [] none l]
      | none => ([] : List XElem)) ++ kids)

/-- Store in which the placeholder's URI has no `uri` row. -/
def storeMissing (u : String) (pcs : List XElem) (cc : Option (List XElem))
    (kids : List XElem) : PStore :=
  ⟨[(1, mkParent u pcs), (2, mkChildTree cc kids)], [], [(1, 2)]⟩

/-- Store in which the placeholder's URI resolves to xml id 2. -/
def storeResolved (u : String) (pcs : List XElem) (cc : Option (List XElem))
    (kids : List XElem) : PStore :=
  ⟨[(1, mkParent u pcs), (2, mkChildTree cc kids)], [(u, 2)], [(1, 2)]⟩

/-- The subtree after the merge of the placeholder's constraints: extended
when the subtree has a `<constraints>` element, attached otherwise. -/
def mergedChild (pcs : List XElem) (cc : Option (List XElem))
    (kids : List XElem) : XElem :=
  match cc with
  | some l =>
    .mk "content-set" [("type", "inline")] none
      (XElem.mk "constraints" [] none (l ++ pcs) :: kids)
  | none =>
    .mk "content-set" [("type", "inline")] none
      (kids ++ [XElem.mk "constraints" [] none pcs])

lemma toEtree_storeResolved_child (u : String) (pcs kids : List XElem)
    (cc : Option (List XElem)) (fuel : ℕ)
    (hkids : ∀ k ∈ kids, ¬(k.tag == "content-set") = true) :
    toEtree (storeResolved u pcs cc kids) (fuel + 1) 2
      = .ok (some (mkChildTree cc kids)) := by
  have hfilter : kids.filter (fun c => c.tag == "content-set") = [] :=
    List.filter_eq_nil_iff.mpr hkids
  simp only [toEtree, lookupXml, storeResolved, mkChildTree, List.find?]
  simp only [XElem.children, List.filter_append, hfilter, List.append_nil]
  cases cc with
  | none =>
    simp [processContentSets, XElem.withChildren, hfilter]
  | some l =>
    have hhead : List.filter (fun c => c.tag == "content-set")
        (XElem.mk "constraints" [] none l :: kids)
          = List.filter (fun c => c.tag == "content-set") kids :=
      List.filter_cons_of_neg (by simp [XElem.tag])
    simp [processContentSets, XElem.withChildren, hhead, hfilter]

lemma toEtree_storeResolved_parent (u : String) (pcs kids : List XElem)
    (cc : Option (List XElem)) (fuel : ℕ)
    (hu : pyStrip u = u)
    (hk2 : ∀ k ∈ kids, ¬(k.tag == "constraints") = true)
    (hchild : toEtree (storeResolved u pcs cc kids) fuel 2
        = .ok (some (mkChildTree cc kids))) :
    toEtree (storeResolved u pcs cc kids) (fuel + 1) 1
      = .ok (some (XElem.mk "content-set" [] none [mergedChild pcs cc kids])) := by
  have htag : ∀ t a x c, XElem.tag (XElem.mk t a x c) = t := fun _ _ _ _ => rfl
  have hchildren : ∀ t a x c, XElem.children (XElem.mk t a x c) = c :=
    fun _ _ _ _ => rfl
  have hattrs : ∀ t a x c, XElem.attrs (XElem.mk t a x c) = a :=
    fun _ _ _ _ => rfl
  have htext : ∀ t a x c, XElem.text (XElem.mk t a x c) = x :=
    fun _ _ _ _ => rfl
  have hwith : ∀ t a x c cs, XElem.withChildren (XElem.mk t a x c) cs
      = XElem.mk t a x cs := fun _ _ _ _ _ => rfl
  have hne : ∀ (x1 : Option String) (c1 c2 : List XElem),
      xeq (XElem.mk "content-set" [("type", "inline")] x1 c1)
        (XElem.mk "content-set" [("type", "remote")] none c2) = false := by
    intro x1 c1 c2
    rw [xeq]
    simp
  have hchild2 := hchild
  cases cc with
  | some l =>
    simp only [storeResolved, mkParent, mkPlaceholder, mkChildTree,
      List.singleton_append, List.nil_append] at hchild2
    simp [toEtree, storeResolved, mkParent, mkPlaceholder, mkChildTree,
      lookupXml, childIds, processContentSets, processSources, getAttrD,
      findChild, lookupUri, mergeConstraints, placeholderConstraintsElem,
      constraintRoots, replaceFirstConstraints, mergedChild, indexOfElem,
      removeElem, xeq_refl, hne, hu, hchild2, htag, hchildren, hattrs, htext,
      hwith, List.find?, beq_self_eq_true]
  | none =>
    have hfind : kids.find? (fun c => c.tag == "constraints") = none :=
      List.find?_eq_none.mpr hk2
    simp only [storeResolved, mkParent, mkPlaceholder, mkChildTree,
      List.singleton_append, List.nil_append] at hchild2
    simp [toEtree, storeResolved, mkParent, mkPlaceholder, mkChildTree,
      lookupXml, childIds, processContentSets, processSources, getAttrD,
      findChild, lookupUri, mergeConstraints, placeholderConstraintsElem,
      constraintRoots, replaceFirstConstraints, mergedChild, indexOfElem,
      removeElem, xeq_refl, hne, hu, hchild2, htag, hchildren, hattrs, htext,
      hwith, List.find?, beq_self_eq_true, hfind]
end Persist

/-- Claim C8 counterexample: when the placeholder's source URI has no row in
the `uri` table, `to_etree_elem` on the parent does NOT return `None` — the
lookup failure merely logs a DB-integrity warning, the placeholder is left in
place, and the parent tree is returned as-is. -/
theorem C8_counterexample_missing_uri_returns_tree :
    Persist.toEtree (Persist.storeMissing "u2" [] none []) 5 1
        = Except.ok (some (Persist.mkParent "u2" [])) ∧
    some (Persist.mkParent "u2" []) ≠ none := by
  exact ⟨rfl, by simp⟩

/-- Claim C8 (amended): for a persisted parent whose stored XML contains a
remote `<content-set>` placeholder, (1) when the placeholder's source URI has
no row in the persistent store, reassembly of the parent does NOT return
`None`: the placeholder stays in place and the parent tree itself is
returned (only a missing/unparsable XML row for the requested id, or a
placeholder without `<requires-file>`/`<sources>`, makes `to_etree_elem`
return `None`); and (2) when the URI resolves, the fetched subtree is spliced
in place of the placeholder with the placeholder's constraints merged into
the subtree's root `<constraints>` element — extended when present, attached
when absent. -/
theorem C8_reassembly_amended (u : String) (pcs kids : List Persist.XElem)
    (cc : Option (List Persist.XElem))
    (hu : Persist.pyStrip u = u)
    (hk1 : ∀ k ∈ kids, ¬(k.tag == "content-set") = true)
    (hk2 : ∀ k ∈ kids, ¬(k.tag == "constraints") = true) :
    Persist.toEtree (Persist.storeMissing u pcs cc kids) 5 1
        = Except.ok (some (Persist.mkParent u pcs)) ∧
    Persist.toEtree (Persist.storeResolved u pcs cc kids) 5 1
        = Except.ok (some (Persist.XElem.mk "content-set" [] none
            [Persist.mergedChild pcs cc kids])) := by
  constructor
  · show Persist.toEtree (Persist.storeMissing u pcs cc kids) (4 + 1) 1
      = Except.ok (some (Persist.mkParent u pcs))
    simp [Persist.toEtree, Persist.lookupXml, Persist.storeMissing,
      Persist.mkParent, Persist.mkPlaceholder, Persist.childIds,
      Persist.processContentSets, Persist.getAttrD, Persist.findChild,
      Persist.processSources, Persist.lookupUri, Persist.XElem.children,
      Persist.XElem.tag, Persist.XElem.attrs, Persist.XElem.text,
      Persist.XElem.withChildren, List.find?]
  · have hchild : Persist.toEtree (Persist.storeResolved u pcs cc kids) 4 2
        = Except.ok (some (Persist.mkChildTree cc kids)) :=
      Persist.toEtree_storeResolved_child u pcs kids cc 3 hk1
    exact Persist.toEtree_storeResolved_parent u pcs kids cc 4 hu hk2 hchild

/-- Witness for `C8_reassembly_amended`: a placeholder for URI `u2` carrying
one priority constraint, resolving to an inline set with an existing
`<constraints>` element (one time constraint) and one content item. -/
theorem C8_reassembly_amended_witness :
    (Persist.pyStrip "u2" = "u2" ∧
      (∀ k ∈ [Persist.XElem.mk "content-item" [] none []],
        ¬(k.tag == "content-set") = true) ∧
      (∀ k ∈ [Persist.XElem.mk "content-item" [] none []],
        ¬(k.tag == "constraints") = true)) ∧
    (Persist.toEtree
        (Persist.storeMissing "u2" [Persist.XElem.mk "priority" [("level", "high")] none []]
          (some [Persist.XElem.mk "time" [] none []])
          [Persist.XElem.mk "content-item" [] none []]) 5 1
      = Except.ok (some (Persist.mkParent "u2"
          [Persist.XElem.mk "priority" [("level", "high")] none []])) ∧
    Persist.toEtree
        (Persist.storeResolved "u2" [Persist.XElem.mk "priority" [("level", "high")] none []]
          (some [Persist.XElem.mk "time" [] none []])
          [Persist.XElem.mk "content-item" [] none []]) 5 1
      = Except.ok (some (Persist.XElem.mk "content-set" [] none
          [Persist.mergedChild [Persist.XElem.mk "priority" [("level", "high")] none []]
            (some [Persist.XElem.mk "time" [] none []])
            [Persist.XElem.mk "content-item" [] none []]]))) :=
  ⟨⟨rfl, by simp [Persist.XElem.tag], by simp [Persist.XElem.tag]⟩,
    C8_reassembly_amended "u2"
      [Persist.XElem.mk "priority" [("level", "high")] none []]
      [Persist.XElem.mk "content-item" [] none []]
      (some [Persist.XElem.mk "time" [] none []]) rfl
      (by simp [Persist.XElem.tag]) (by simp [Persist.XElem.tag])⟩

end Yarely
